import Mathlib

/-!
Verification of the e-radio dataset maintenance scripts (`tools/`).

The definitions below are a shallow embedding of the Python sources:
  * `tools/remove-duplicate-stations.py`
  * `tools/fill-state-from-geo.py`
  * `tools/fill-state-from-homepage.py`
  * `tools/fix-state-city-only.py`
Station records are modelled with the fields these scripts touch; external
HTTP calls are modelled by oracles consumed sequentially.
-/

namespace ERadio

/-! ## Python string helpers -/

/-- Whitespace characters stripped by Python `str.strip()` / split by `str.split()`
(ASCII range; exotic Unicode spaces are not produced by this dataset). -/
def pyIsSpace (c : Char) : Bool :=
  c = ' ' || c = '\t' || c = '\n' || c = '\r' || c = '\x0b' || c = '\x0c'

/-- Python `str.strip()`. -/
def pyStrip (s : String) : String :=
  String.mk (((s.data.dropWhile pyIsSpace).reverse.dropWhile pyIsSpace).reverse)

/-- Python `x or ""` applied to an optional string field. -/
def orEmpty : Option String → String
  | none => ""
  | some s => s

/-- Python truthiness of an optional string value (`None` and `""` are falsy). -/
def truthy : Option String → Bool
  | none => false
  | some s => s ≠ ""

/-- Decidable list membership used to model Python `in` on sets/lists. -/
def memB {α : Type} [DecidableEq α] (x : α) : List α → Bool
  | [] => false
  | y :: l => if x = y then true else memB x l

/-- Insertion-order deduplication (Python `dict` key order / `set` collection
of first occurrences); `seen` holds the keys already emitted. -/
def dedupBy {α : Type} [DecidableEq α] (seen : List α) : List α → List α
  | [] => []
  | x :: rest => if memB x seen then dedupBy seen rest else x :: dedupBy (x :: seen) rest

/-- Does `needle` occur at the head of `hay`? -/
def leadEq : List Char → List Char → Bool
  | [], _ => true
  | _ :: _, [] => false
  | a :: as, b :: bs => a = b && leadEq as bs

/-- Python `needle in hay` substring test. -/
def hasSub (needle : List Char) : List Char → Bool
  | [] => leadEq needle []
  | c :: rest => leadEq needle (c :: rest) || hasSub needle rest

/-- Split on a separator character (Python `s.split("/")` semantics); `acc`
holds the current component reversed. -/
def splitCharGo (sep : Char) (acc : List Char) : List Char → List String
  | [] => [String.mk acc.reverse]
  | c :: rest =>
    if c = sep then String.mk acc.reverse :: splitCharGo sep [] rest
    else splitCharGo sep (c :: acc) rest

def splitChar (sep : Char) (s : String) : List String := splitCharGo sep [] s.data

/-- Python `pathlib.Path(s).name`: the last path component, with empty and `"."`
components dropped (POSIX flavour, `".."` kept, as `pathlib` does). -/
def pathName (s : String) : String :=
  (((splitChar '/' s).filter (fun c => c ≠ "" && c ≠ ".")).getLast?).getD ""

/-- Python lexicographic string order (code-point comparison), on char lists. -/
def charsLt : List Char → List Char → Bool
  | [], [] => false
  | [], _ :: _ => true
  | _ :: _, [] => false
  | a :: as, b :: bs => if a < b then true else if b < a then false else charsLt as bs

/-! ## Station records

One JSON object of `src/data/stations-gr.json`, restricted to the fields the
scripts read or write; a missing key is `none` (Python `dict.get` gives `None`). -/

structure Station where
  stationuuid : Option String
  name : Option String
  slug : Option String
  stream_url : Option String
  favicon : Option String
  state : Option String
  city : Option String
  geo_lat : Option String
  geo_long : Option String
  homepage : Option String
deriving DecidableEq

/-! ## `tools/remove-duplicate-stations.py` -/

def isSuffixAlnum (c : Char) : Bool :=
  ('a' ≤ c && c ≤ 'z') || ('A' ≤ c && c ≤ 'Z') || ('0' ≤ c && c ≤ '9')

/-- `slug_suffix_re.search(slug)` for `re.compile(r"-[a-z0-9]{6,8}$", re.IGNORECASE)`:
the string ends in `'-'` followed by exactly `k` alphanumeric characters for
some `k ∈ {6,7,8}`. -/
def slugSuffixMatch (s : String) : Bool :=
  let cs := s.data
  [6, 7, 8].any (fun k =>
    decide (k + 1 ≤ cs.length) &&
    decide (cs.getD (cs.length - k - 1) ' ' = '-') &&
    (cs.drop (cs.length - k)).all isSuffixAlnum)

/-- `score_station`. -/
def score_station (st : Station) : Nat :=
  let slug := pyStrip (orEmpty st.slug)
  let nm := pyStrip (orEmpty st.name)
  (if slug ≠ "" ∧ slugSuffixMatch slug = false then 10 else 0) +
  (if nm ≠ "" then 1 else 0)

/-- The raw (unstripped) slug used by the sort key. -/
def slugRaw (st : Station) : String := orEmpty st.slug

/-- Strict comparison of the Python sort keys
`(-score_station(s), len(slug), slug)`: `sortKeyLt a b` iff `a`'s key is
strictly smaller than `b`'s. -/
def sortKeyLt (a b : Station) : Bool :=
  if score_station a ≠ score_station b then decide (score_station b < score_station a)
  else if (slugRaw a).length ≠ (slugRaw b).length then
    decide ((slugRaw a).length < (slugRaw b).length)
  else charsLt (slugRaw a).data (slugRaw b).data

/-- `sorted(stations, key=...)[0]`: the first element of minimal key
(Python's sort is stable, so ties keep the earlier record). -/
def selectKeeper (best : Station) : List Station → Station
  | [] => best
  | s :: rest => selectKeeper (if sortKeyLt s best then s else best) rest

/-- The grouping key: the stripped `stream_url`, with the sentinel bucket
`"__no_stream__"` for records whose URL is empty or missing. -/
def urlKey (st : Station) : String :=
  let url := pyStrip (orEmpty st.stream_url)
  if url = "" then "__no_stream__" else url

/-- The distinct grouping keys in order of first appearance (Python `dict`
insertion order). -/
def groupKeys (data : List Station) : List String :=
  dedupBy [] (data.map urlKey)

/-- `by_url` as an insertion-ordered association list. -/
def groupsOf (data : List Station) : List (String × List Station) :=
  (groupKeys data).map (fun k => (k, data.filter (fun s => urlKey s = k)))

/-- The body of the `for url, stations in by_url.items()` loop, threading the
`(kept_ids, removed)` accumulator.  For a multi-member group, Python collects
`sorted(stations, key)[1:]`; as a multiset that is the group minus one
occurrence of the keeper, which `List.erase` computes (no claim observes the
order of `removed`). -/
def processGroup (acc : List (Option String) × List Station) (g : String × List Station) :
    List (Option String) × List Station :=
  match g.2 with
  | [] => acc
  | st :: rest =>
    if rest.isEmpty then (acc.1 ++ [st.stationuuid], acc.2)
    else
      let keeper := selectKeeper st rest
      (acc.1 ++ [keeper.stationuuid], acc.2 ++ (st :: rest).erase keeper)

structure DedupOut where
  finalData : List Station
  removed : List Station
  keptIds : List (Option String)
deriving DecidableEq

/-- The dataset phase of `remove-duplicate-stations.py`'s `main` (grouping,
keeper selection, and the `final_data` filter). -/
def runDedup (data : List Station) : DedupOut :=
  let acc := (groupsOf data).foldl processGroup ([], [])
  { finalData := data.filter (fun s => memB s.stationuuid acc.1)
    removed := acc.2
    keptIds := acc.1 }

/-- The icon filename a record references: defined when its `favicon` contains
`"/station-icons/"`, in which case it is `Path(favicon).name`. -/
def iconName (st : Station) : Option String :=
  let fav := orEmpty st.favicon
  if hasSub "/station-icons/".data fav.data then some (pathName fav) else none

/-- The icon-deletion phase: `disk` is the set of filenames present in the
icons directory; the result is the list of deleted filenames, in deletion
order up to the `sorted` permutation (each set element visited once). -/
def runIcons (finalData removed : List Station) (disk : List String) : List String :=
  let referenced := finalData.filterMap iconName
  let removedIcons :=
    (removed.filterMap iconName).filter (fun n => n ≠ "" && !memB n referenced)
  (dedupBy [] removedIcons).filter (fun n => memB n disk)

/-! ## `tools/fill-state-from-geo.py` -/

/-- `ADDRESS_PRIORITY`. -/
def ADDRESS_PRIORITY : List String :=
  ["city", "town", "village", "municipality", "county",
   "city_district", "suburb", "state_district", "state", "region"]

/-- The `address` object of a geocoding response: keys paired with either a
string value (`some v`) or a non-string JSON value (`none`).  Keys are unique
in a JSON object; lookup takes the first matching pair. -/
abbrev AddrMap := List (String × Option String)

/-- `address.get(key)`: `none` when the key is absent. -/
def lookupAddr (addr : AddrMap) (k : String) : Option (Option String) :=
  (addr.find? (fun p => p.1 = k)).map (fun p => p.2)

/-- The loop body of `pick_state_from_address` over a remaining key list. -/
def pickFrom (addr : AddrMap) : List String → Option String
  | [] => none
  | k :: rest =>
    match lookupAddr addr k with
    | some (some v) => if pyStrip v ≠ "" then some (pyStrip v) else pickFrom addr rest
    | _ => pickFrom addr rest

/-- `pick_state_from_address`. -/
def pick_state_from_address (addr : AddrMap) : Option String :=
  pickFrom addr ADDRESS_PRIORITY

/-- Modelled from the spec's wording, for comparison with the source
function: "the first non-empty field of the geocoding response's address
object taken in the fixed priority order …, whitespace-stripped". -/
def specFirstNonEmpty (addr : AddrMap) : Option String :=
  (ADDRESS_PRIORITY.filterMap (fun k =>
    match lookupAddr addr k with
    | some (some v) => if pyStrip v = "" then none else some (pyStrip v)
    | _ => none)).head?

/-- `station.get("state") not in (None, "")`. -/
def hasState (st : Station) : Bool :=
  match st.state with
  | none => false
  | some v => v ≠ ""

/-- `lat in (None, "")`. -/
def coordMissing : Option String → Bool
  | none => true
  | some v => v = ""

/-- The command-line arguments of `fill-state-from-geo.py` that affect the
dataset logic: `maxItems = none` models `--max 0` (no limit, the default,
`float("inf")` in the source); `sleepPos` is `args.sleep > 0`. -/
structure GeoArgs where
  overwrite : Bool
  maxItems : Option Nat
  sleepPos : Bool
deriving DecidableEq

/-- `processed >= max_items` (always false with no limit). -/
def maxReached : Option Nat → Nat → Bool
  | none, _ => false
  | some m, p => m ≤ p

/-- Events observable on the wire within one run: a geocoding request, or a
`time.sleep` pause. -/
inductive GeoEvent
  | request
  | sleep
deriving DecidableEq

/-- The mutable state of `main`'s loop: the dataset, the skip set (station
ids, possibly `None`), the `processed` counter, the number of requests made
so far (`calls`, used to index the oracle), and the event trace. -/
structure GeoState where
  data : List Station
  skipped : List (Option String)
  processed : Nat
  calls : Nat
  trace : List GeoEvent
deriving DecidableEq

/-- A geocoding oracle: the outcome of the `k`-th `reverse_geocode` call.
`.error ()` models an exception (network failure, non-JSON content type, or a
`float()` conversion error); `.ok none` a payload whose `"address"` is absent
or falsy (`payload.get("address") or {}`); `.ok (some addr)` a payload with
an address object. -/
abbrev GeoOracle := Nat → Except Unit (Option AddrMap)

def addrOf : Option AddrMap → AddrMap
  | none => []
  | some a => a

/-- The station-selection predicate of the `for station in data` scan. -/
def geoEligible (ag : GeoArgs) (skipped : List (Option String)) (st : Station) : Bool :=
  (ag.overwrite || !hasState st) && !memB st.stationuuid skipped

/-- First eligible station with its index, scanning from position `i`. -/
def selectFrom (ag : GeoArgs) (skipped : List (Option String)) (i : Nat) :
    List Station → Option (Nat × Station)
  | [] => none
  | st :: rest =>
    if geoEligible ag skipped st then some (i, st) else selectFrom ag skipped (i + 1) rest

/-- `target` selection (`None` when the scan finds no station). -/
def geoSelect (ag : GeoArgs) (s : GeoState) : Option (Nat × Station) :=
  selectFrom ag s.skipped 0 s.data

/-- `skipped.add(x)` (sets collect each element once). -/
def addSkip (skipped : List (Option String)) (x : Option String) : List (Option String) :=
  if memB x skipped then skipped else skipped ++ [x]

/-- One iteration body of the `while` loop, after a target at index `idx` has
been selected: the coordinate check, the geocoding call, the address pick,
and on success the in-place state update, dataset write and sleep. -/
def geoBody (ag : GeoArgs) (oracle : GeoOracle) (s : GeoState) (idx : Nat)
    (target : Station) : GeoState :=
  if coordMissing target.geo_lat || coordMissing target.geo_long then
    { s with skipped := addSkip s.skipped target.stationuuid }
  else
    let res := oracle s.calls
    let s1 := { s with calls := s.calls + 1, trace := s.trace ++ [GeoEvent.request] }
    match res with
    | Except.error _ => { s1 with skipped := addSkip s1.skipped target.stationuuid }
    | Except.ok payload =>
      match pick_state_from_address (addrOf payload) with
      | none => { s1 with skipped := addSkip s1.skipped target.stationuuid }
      | some v =>
        let s2 := { s1 with
                    data := s1.data.set idx { target with state := some v }
                    processed := s1.processed + 1 }
        if ag.sleepPos && !maxReached ag.maxItems s2.processed then
          { s2 with trace := s2.trace ++ [GeoEvent.sleep] }
        else s2

/-- The `while processed < max_items` loop, with fuel: `none` means the fuel
ran out before the loop exited (the run performs more than `fuel` iterations);
`some s` means the loop returned normally with final state `s`. -/
def geoRun (ag : GeoArgs) (oracle : GeoOracle) : Nat → GeoState → Option GeoState
  | 0, _ => none
  | fuel + 1, s =>
    if maxReached ag.maxItems s.processed then some s
    else
      match geoSelect ag s with
      | none => some s
      | some (idx, target) => geoRun ag oracle fuel (geoBody ag oracle s idx target)

/-- Initial loop state for a freshly started run. -/
def geoInit (data : List Station) (skipped : List (Option String)) : GeoState :=
  { data := data, skipped := skipped, processed := 0, calls := 0, trace := [] }

/-- Two consecutive requests with no sleep between them occur in the trace. -/
def adjacentRequests : List GeoEvent → Bool
  | GeoEvent.request :: GeoEvent.request :: _ => true
  | _ :: rest => adjacentRequests rest
  | [] => false

/-! ## `tools/fill-state-from-homepage.py`

The loop has the same driving shape as the geo filler; the composite
`fetch_html` + `extract_jsonld_blocks` + `pick_state_from_jsonld` pipeline,
whose input is external uncontrolled HTML, is modelled by an oracle giving
the outcome of the `k`-th fetch: `.error ()` a fetch exception, `.ok none` a
page yielding no state, `.ok (some v)` an extracted state value. -/

abbrev HpOracle := Nat → Except Unit (Option String)

structure HpState where
  data : List Station
  skipped : List (Option String)
  processed : Nat
  calls : Nat
deriving DecidableEq

/-- `station.get("state") in (None, "") and station.get("stationuuid") not in skipped`. -/
def hpEligible (skipped : List (Option String)) (st : Station) : Bool :=
  !hasState st && !memB st.stationuuid skipped

def hpSelectFrom (skipped : List (Option String)) (i : Nat) :
    List Station → Option (Nat × Station)
  | [] => none
  | st :: rest =>
    if hpEligible skipped st then some (i, st) else hpSelectFrom skipped (i + 1) rest

def hpSelect (s : HpState) : Option (Nat × Station) :=
  hpSelectFrom s.skipped 0 s.data

/-- One iteration body of the homepage filler's loop after target selection. -/
def hpBody (oracle : HpOracle) (s : HpState) (idx : Nat) (target : Station) : HpState :=
  if pyStrip (orEmpty target.homepage) = "" then
    { s with skipped := addSkip s.skipped target.stationuuid }
  else
    let res := oracle s.calls
    let s1 := { s with calls := s.calls + 1 }
    match res with
    | Except.error _ => { s1 with skipped := addSkip s1.skipped target.stationuuid }
    | Except.ok none => { s1 with skipped := addSkip s1.skipped target.stationuuid }
    | Except.ok (some v) =>
      { s1 with
        data := s1.data.set idx { target with state := some v }
        processed := s1.processed + 1 }

/-- The homepage filler's `while processed < max_items` loop, with fuel. -/
def hpRun (maxItems : Option Nat) (oracle : HpOracle) : Nat → HpState → Option HpState
  | 0, _ => none
  | fuel + 1, s =>
    if maxReached maxItems s.processed then some s
    else
      match hpSelect s with
      | none => some s
      | some (idx, target) => hpRun maxItems oracle fuel (hpBody oracle s idx target)

def hpInit (data : List Station) (skipped : List (Option String)) : HpState :=
  { data := data, skipped := skipped, processed := 0, calls := 0 }

/-! ## JSON values and the file loaders (`load_city_region_map`, skip files) -/

/-- JSON values (numbers as integers; nothing here depends on fractions). -/
inductive Json
  | null
  | bool (b : Bool)
  | num (n : Int)
  | str (s : String)
  | arr (xs : List Json)
  | obj (fields : List (String × Json))

mutual

def jsonBeq : Json → Json → Bool
  | Json.null, Json.null => true
  | Json.bool a, Json.bool b => a == b
  | Json.num a, Json.num b => a == b
  | Json.str a, Json.str b => a == b
  | Json.arr xs, Json.arr ys => jsonBeqList xs ys
  | Json.obj xs, Json.obj ys => jsonBeqFields xs ys
  | _, _ => false

def jsonBeqList : List Json → List Json → Bool
  | [], [] => true
  | x :: xs, y :: ys => jsonBeq x y && jsonBeqList xs ys
  | _, _ => false

def jsonBeqFields : List (String × Json) → List (String × Json) → Bool
  | [], [] => true
  | p :: xs, q :: ys => p.1 == q.1 && jsonBeq p.2 q.2 && jsonBeqFields xs ys
  | _, _ => false

end

instance : BEq Json := ⟨jsonBeq⟩

/-- `BEq`-based membership, for the `Json`-valued skip sets. -/
def memBq {α : Type} [BEq α] (x : α) : List α → Bool
  | [] => false
  | y :: l => x == y || memBq x l

/-- `BEq`-based insertion-order deduplication (Python `set` collection). -/
def dedupBq {α : Type} [BEq α] (seen : List α) : List α → List α
  | [] => []
  | x :: rest => if memBq x seen then dedupBq seen rest else x :: dedupBq (x :: seen) rest

/-- A file read followed by `json.loads`: `none` models a missing file,
`some (.error ())` a present but malformed file (the parse raises),
`some (.ok j)` a file parsing to `j`. -/
abbrev JsonFile := Option (Except Unit Json)

/-- Is a JSON value hashable in Python (arrays and objects are not)? -/
def jsonHashable : Json → Bool
  | Json.arr _ => false
  | Json.obj _ => false
  | _ => true

/-- Python `set(x)` on a decoded JSON value: fails (`TypeError`) on
non-iterables and on iterables with unhashable members; a string iterates
into its characters; an object iterates into its keys. -/
def setOfJson : Json → Except Unit (List Json)
  | Json.str s => Except.ok (dedupBq [] (s.data.map (fun c => Json.str (String.mk [c]))))
  | Json.arr xs => if xs.all jsonHashable then Except.ok (dedupBq [] xs) else Except.error ()
  | Json.obj fields => Except.ok (dedupBq [] (fields.map (fun p => Json.str p.1)))
  | _ => Except.error ()

/-- The skip-file loader of the three looped scripts:
`skipped = set()` then, if the file exists, `try: skipped = set(json.loads(...))
except Exception: skipped = set()`.  The outer `Except` is an uncaught
exception escaping the loader. -/
def loadSkipped : JsonFile → Except Unit (List Json)
  | none => Except.ok []
  | some (Except.error _) => Except.ok []
  | some (Except.ok j) =>
    match setOfJson j with
    | Except.error _ => Except.ok []
    | Except.ok v => Except.ok v

/-! ## `tools/fix-state-city-only.py` -/

/-- `REGIONS`. -/
def REGIONS : List String :=
  ["Attica", "Central Macedonia", "Western Macedonia",
   "Eastern Macedonia and Thrace", "Thessaly", "Epirus", "Western Greece",
   "Central Greece", "Peloponnese", "North Aegean", "South Aegean",
   "Ionian Islands", "Crete"]

/-- Python's single-character `str.replace`. -/
def replaceChar (c r : Char) (s : String) : String :=
  String.mk (s.data.map (fun x => if x = c then r else x))

/-- Python `str.split()`: split on whitespace runs, dropping empties; `acc`
holds the current word reversed. -/
def splitWsGo (acc : List Char) : List Char → List String
  | [] => if acc.isEmpty then [] else [String.mk acc.reverse]
  | c :: rest =>
    if pyIsSpace c then
      if acc.isEmpty then splitWsGo [] rest
      else String.mk acc.reverse :: splitWsGo [] rest
    else splitWsGo (c :: acc) rest

def pySplitWs (s : String) : List String := splitWsGo [] s.data

/-- `normalize_text` (Python `str.lower()` modelled on the ASCII range). -/
def normalize_text (value : String) : String :=
  let cleaned := String.mk ((pyStrip value).data.map Char.toLower)
  let cleaned := replaceChar '-' ' ' (replaceChar '/' ' ' cleaned)
  String.intercalate " " (pySplitWs cleaned)

/-- `load_city_region_map`: guards make every failure path return a value, so
the result type needs no exception.  Later duplicate normalized keys
overwrite earlier ones in the Python dict, which `dictGet`'s last-match
lookup reproduces on this insertion-ordered list. -/
def load_city_region_map : JsonFile → List (String × String)
  | none => []
  | some (Except.error _) => []
  | some (Except.ok j) =>
    match j with
    | Json.obj fields =>
      fields.filterMap (fun p =>
        match p.2 with
        | Json.str r => some (normalize_text p.1, pyStrip r)
        | _ => none)
    | _ => []

/-- `m.get(k)` with Python dict overwrite semantics: the last pair wins. -/
def dictGet (m : List (String × String)) (k : String) : Option String :=
  (m.reverse.find? (fun p => p.1 = k)).map (fun p => p.2)

/-- `k in m`. -/
def hasKey (m : List (String × String)) (k : String) : Bool :=
  m.any (fun p => p.1 = k)

/-- `state_value in REGIONS` (raw value, no stripping). -/
def stateIsRegion : Option String → Bool
  | none => false
  | some v => memB v REGIONS

/-- `skipped.discard(x)`. -/
def discardSkip (skipped : List (Option String)) (x : Option String) :
    List (Option String) :=
  skipped.filter (fun y => y ≠ x)

/-- The running accumulator of the static-map normalizer's `for` loop. -/
structure FixAcc where
  skipped : List (Option String)
  unknownCities : List String
  processed : Nat
deriving DecidableEq

/-- The per-station body of `fix-state-city-only.py`'s `for station in data`
loop: returns the (possibly updated) station and the new accumulator. -/
def fixStep (cityMap : List (String × String)) (st : Station) (a : FixAcc) :
    Station × FixAcc :=
  if stateIsRegion st.state || truthy st.city then (st, a)
  else
    match st.state with
    | none => (st, a)
    | some sv =>
      if pyStrip sv = "" then (st, a)
      else
        let cityLookup := normalize_text sv
        if memB st.stationuuid a.skipped && !hasKey cityMap cityLookup then (st, a)
        else
          let city := pyStrip sv
          match dictGet cityMap cityLookup with
          | none =>
            (st, { a with
                   unknownCities := if memB city a.unknownCities then a.unknownCities
                                    else a.unknownCities ++ [city]
                   skipped := addSkip a.skipped st.stationuuid })
          | some region =>
            if region = "" then
              (st, { a with
                     unknownCities := if memB city a.unknownCities then a.unknownCities
                                      else a.unknownCities ++ [city]
                     skipped := addSkip a.skipped st.stationuuid })
            else if !memB region REGIONS then
              (st, { a with skipped := addSkip a.skipped st.stationuuid })
            else
              ({ st with city := some city, state := some region },
               { a with processed := a.processed + 1
                        skipped := discardSkip a.skipped st.stationuuid })

/-- The whole `for station in data` loop with its `processed >= max_items`
break; in-place mutation of the current record is modelled by emitting the
updated record at the same position. -/
def fixLoop (cityMap : List (String × String)) (maxItems : Option Nat) :
    List Station → FixAcc → List Station × FixAcc
  | [], a => ([], a)
  | st :: rest, a =>
    if maxReached maxItems a.processed then (st :: rest, a)
    else
      let (st', a') := fixStep cityMap st a
      let (rest', a'') := fixLoop cityMap maxItems rest a'
      (st' :: rest', a'')

/-- A full run of the static-map normalizer's dataset loop from a fresh start. -/
def fixRun (cityMap : List (String × String)) (maxItems : Option Nat)
    (data : List Station) (skipped : List (Option String)) : List Station × FixAcc :=
  fixLoop cityMap maxItems data { skipped := skipped, unknownCities := [], processed := 0 }

/-! ## Specification-side helpers used to state and prove the theorems -/

/-- Concatenated map (`flat_map`), used to characterize the grouping fold. -/
def catMap {α β : Type} (f : α → List β) : List α → List β
  | [] => []
  | x :: l => f x ++ catMap f l

/-- The keeper of one group (`stations[0]` for singletons, the minimal-key
record otherwise; the two coincide). -/
def groupKeeper : List Station → Option Station
  | [] => none
  | st :: rest => some (selectKeeper st rest)

/-- The id contributed to `kept_ids` by one group. -/
def groupKept : List Station → List (Option String)
  | [] => []
  | st :: rest =>
    if rest.isEmpty then [st.stationuuid]
    else [(selectKeeper st rest).stationuuid]

/-- The records contributed to `removed` by one group. -/
def groupRemoved : List Station → List Station
  | [] => []
  | st :: rest =>
    if rest.isEmpty then []
    else (st :: rest).erase (selectKeeper st rest)

/-! ## Concrete instances used in witnesses and counterexamples -/

/-- A record with every field absent. -/
def stBase : Station :=
  { stationuuid := none
    name := none
    slug := none
    stream_url := none
    favicon := none
    state := none
    city := none
    geo_lat := none
    geo_long := none
    homepage := none }

/-- A stable-slug record. -/
def wA : Station :=
  { stBase with
    stationuuid := some "a1"
    name := some "Alpha FM"
    slug := some "alpha-fm"
    stream_url := some "http://stream.example/a" }

/-- A random-suffixed duplicate of `wA` on the same stream URL. -/
def wB : Station :=
  { stBase with
    stationuuid := some "b2"
    name := some "Alpha FM"
    slug := some "alpha-fm-x1y2z3"
    stream_url := some "http://stream.example/a" }

/-- A record with no `stream_url` at all. -/
def c1A : Station :=
  { stBase with
    stationuuid := some "n1"
    name := some "No Stream One"
    slug := some "nostream-one" }

/-- A different record whose `stream_url` is the empty string. -/
def c1B : Station :=
  { stBase with
    stationuuid := some "n2"
    name := some "No Stream Two"
    slug := some "nostream-two"
    stream_url := some "" }

/-- A surviving record referencing icon `keep.png`. -/
def iA : Station :=
  { stBase with
    stationuuid := some "ia"
    name := some "Icon A"
    slug := some "icon-a"
    stream_url := some "http://stream.example/i"
    favicon := some "/station-icons/keep.png" }

/-- A removed duplicate of `iA` referencing icon `gone.png`. -/
def iB : Station :=
  { stBase with
    stationuuid := some "ib"
    name := some "Icon B"
    slug := some "icon-a-q7r8s9"
    stream_url := some "http://stream.example/i"
    favicon := some "/station-icons/gone.png" }

/-- A station lacking `state` but having coordinates. -/
def gW : Station :=
  { stBase with
    stationuuid := some "g1"
    name := some "Geo FM"
    geo_lat := some "38.0"
    geo_long := some "23.7" }

/-- Default-flavoured geo-filler arguments (no overwrite, no limit, 1s sleep). -/
def agW : GeoArgs := { overwrite := false, maxItems := none, sleepPos := true }

/-- A geocoding response address: `city` absent, `town` the first non-empty
priority field. -/
def addrW : AddrMap := [("state", some "Attica"), ("town", some " Marousi ")]

/-- An oracle always answering with `addrW`. -/
def oW : GeoOracle := fun _ => Except.ok (some addrW)

/-- Overwrite-mode arguments with no `--max` limit. -/
def ag2n : GeoArgs := { overwrite := true, maxItems := none, sleepPos := true }

/-- A station with coordinates (state initially missing). -/
def st2c : Station :=
  { stBase with
    stationuuid := some "o1"
    name := some "Overwrite FM"
    geo_lat := some "38.0"
    geo_long := some "23.7" }

/-- `st2c` after a successful update. -/
def st2c' : Station := { st2c with state := some "Athens" }

/-- An oracle whose every response resolves to `Athens`. -/
def or2C : GeoOracle := fun _ => Except.ok (some [("city", some "Athens")])

/-- First station of the C6 run: coordinates present, state missing. -/
def st6a : Station :=
  { stBase with
    stationuuid := some "u1"
    name := some "Skip FM"
    geo_lat := some "38.0"
    geo_long := some "23.7" }

/-- Second station of the C6 run. -/
def st6b : Station :=
  { stBase with
    stationuuid := some "u2"
    name := some "Next FM"
    geo_lat := some "40.6"
    geo_long := some "22.9" }

/-- C6 oracle: the first request yields an empty address (a skip), the
second a usable one. -/
def or6 : GeoOracle := fun k =>
  if k = 0 then Except.ok (some []) else Except.ok (some [("city", some "Athens")])

/-- A one-entry city-to-region lookup table. -/
def map7 : List (String × String) := [("athens", "Attica")]

/-- A station whose `state` holds the city `Athens` and whose `city` is empty. -/
def st7 : Station :=
  { stBase with
    stationuuid := some "c1"
    name := some "City FM"
    state := some "Athens" }

/-- A station whose `state` holds a city absent from the lookup table. -/
def st7m : Station := { st7 with state := some "Foo" }

/-! ## Order lemmas for the duplicate remover's sort key -/

theorem charsLt_irrefl : ∀ l : List Char, charsLt l l = false
  | [] => rfl
  | c :: l => by simp [charsLt, charsLt_irrefl l]

theorem charsLt_trans : ∀ as bs cs : List Char, charsLt as bs = true →
    charsLt bs cs = true → charsLt as cs = true := by
  intro as
  induction as with
  | nil =>
    intro bs cs h1 h2
    cases bs <;> cases cs <;> simp_all [charsLt]
  | cons a as' ih =>
    intro bs cs h1 h2
    cases bs with
    | nil => simp [charsLt] at h1
    | cons b bs' =>
      cases cs with
      | nil => simp [charsLt] at h2
      | cons c cs' =>
        simp only [charsLt] at h1 h2 ⊢
        by_cases hab : a < b
        · by_cases hbc : b < c
          · simp [lt_trans hab hbc]
          · by_cases hcb : c < b
            · simp [hbc, hcb] at h2
            · have hbceq : b = c := le_antisymm (not_lt.mp hcb) (not_lt.mp hbc)
              subst hbceq
              simp [hab]
        · by_cases hba : b < a
          · simp [hab, hba] at h1
          · have habeq : a = b := le_antisymm (not_lt.mp hba) (not_lt.mp hab)
            subst habeq
            simp only [lt_self_iff_false, if_false] at h1
            by_cases hac : a < c
            · simp [hac]
            · by_cases hca : c < a
              · simp [hac, hca] at h2
              · have haceq : a = c := le_antisymm (not_lt.mp hca) (not_lt.mp hac)
                subst haceq
                simp only [lt_self_iff_false, if_false] at h2 ⊢
                exact ih bs' cs' h1 h2

theorem charsLt_false_iff : ∀ as bs : List Char,
    charsLt as bs = false ↔ as = bs ∨ charsLt bs as = true := by
  intro as
  induction as with
  | nil =>
    intro bs
    cases bs <;> simp [charsLt]
  | cons a as' ih =>
    intro bs
    cases bs with
    | nil => simp [charsLt]
    | cons b bs' =>
      simp only [charsLt]
      by_cases hab : a < b
      · have hba : ¬ b < a := lt_asymm hab
        have hne : a ≠ b := ne_of_lt hab
        simp [hab, hba, hne]
      · by_cases hba : b < a
        · have hne : a ≠ b := (ne_of_lt hba).symm
          simp [hab, hba, hne]
        · have habeq : a = b := le_antisymm (not_lt.mp hba) (not_lt.mp hab)
          subst habeq
          simp [ih bs']

theorem sortKeyLt_iff (a b : Station) : sortKeyLt a b = true ↔
    score_station b < score_station a ∨
    (score_station a = score_station b ∧
      ((slugRaw a).length < (slugRaw b).length ∨
       ((slugRaw a).length = (slugRaw b).length ∧
        charsLt (slugRaw a).data (slugRaw b).data = true))) := by
  unfold sortKeyLt
  by_cases hs : score_station a = score_station b
  · by_cases hl : (slugRaw a).length = (slugRaw b).length
    · simp [hs, hl]
    · simp [hs, hl]
  · simp [hs]

theorem sortKeyLt_trans (a b c : Station) (h1 : sortKeyLt a b = true)
    (h2 : sortKeyLt b c = true) : sortKeyLt a c = true := by
  rw [sortKeyLt_iff] at h1 h2 ⊢
  rcases h1 with h1 | ⟨hs1, h1⟩
  · rcases h2 with h2 | ⟨hs2, h2⟩
    · exact Or.inl (lt_trans h2 h1)
    · exact Or.inl (hs2 ▸ h1)
  · rcases h2 with h2 | ⟨hs2, h2⟩
    · exact Or.inl (by omega)
    · refine Or.inr ⟨by omega, ?_⟩
      rcases h1 with h1 | ⟨hl1, h1⟩
      · rcases h2 with h2 | ⟨hl2, h2⟩
        · exact Or.inl (lt_trans h1 h2)
        · exact Or.inl (by omega)
      · rcases h2 with h2 | ⟨hl2, h2⟩
        · exact Or.inl (by omega)
        · exact Or.inr ⟨by omega, charsLt_trans _ _ _ h1 h2⟩

theorem sortKeyLt_irrefl (a : Station) : sortKeyLt a a = false := by
  unfold sortKeyLt
  simp [charsLt_irrefl]

/-- If `c`'s key is below `a`'s but not below `b`'s, then `b`'s key is below
`a`'s (totality of the key preorder). -/
theorem sortKeyLt_total_aux (a b c : Station) (hca : sortKeyLt c a = true)
    (hcb : sortKeyLt c b = false) : sortKeyLt b a = true := by
  have hcb' : ¬ (score_station b < score_station c ∨
      (score_station c = score_station b ∧
        ((slugRaw c).length < (slugRaw b).length ∨
         ((slugRaw c).length = (slugRaw b).length ∧
          charsLt (slugRaw c).data (slugRaw b).data = true)))) := by
    rw [← sortKeyLt_iff]
    simp [hcb]
  rw [sortKeyLt_iff] at hca ⊢
  push_neg at hcb'
  obtain ⟨hcb1, hcb2⟩ := hcb'
  rcases hca with h | ⟨hs, h⟩
  · exact Or.inl (by omega)
  · by_cases hsb : score_station a < score_station b
    · exact Or.inl hsb
    · have hsbc : score_station c = score_station b := by omega
      obtain ⟨hcb3, hcb4⟩ := hcb2 hsbc
      refine Or.inr ⟨by omega, ?_⟩
      rcases h with h | ⟨hl, h⟩
      · exact Or.inl (by omega)
      · by_cases hlb : (slugRaw b).length < (slugRaw a).length
        · exact Or.inl hlb
        · have hlcb : (slugRaw c).length = (slugRaw b).length := by omega
          have hch := hcb4 hlcb
          rcases (charsLt_false_iff _ _).mp (by simpa using hch) with heq | hlt
          · exact Or.inr ⟨by omega, heq ▸ h⟩
          · exact Or.inr ⟨by omega, charsLt_trans _ _ _ hlt h⟩

theorem selectKeeper_mem : ∀ (l : List Station) (best : Station),
    selectKeeper best l ∈ best :: l := by
  intro l
  induction l with
  | nil => intro best; simp [selectKeeper]
  | cons x rest ih =>
    intro best
    simp only [selectKeeper]
    by_cases h : sortKeyLt x best = true
    · simp only [h, if_true]
      rcases List.mem_cons.mp (ih x) with heq | hmem
      · rw [heq]; simp
      · simp [hmem]
    · simp only [Bool.not_eq_true] at h
      simp only [h, Bool.false_eq_true, if_false]
      rcases List.mem_cons.mp (ih best) with heq | hmem
      · rw [heq]; simp
      · simp [hmem]

theorem selectKeeper_min : ∀ (l : List Station) (best s : Station), s ∈ best :: l →
    sortKeyLt s (selectKeeper best l) = false := by
  intro l
  induction l with
  | nil =>
    intro best s hs
    rcases List.mem_cons.mp hs with heq | h
    · rw [heq]; simp [selectKeeper, sortKeyLt_irrefl]
    · simp at h
  | cons x rest ih =>
    intro best s hs
    simp only [selectKeeper]
    by_cases hx : sortKeyLt x best = true
    · simp only [hx, if_true]
      rcases List.mem_cons.mp hs with heq | hs'
      · by_contra hb
        have hb' : sortKeyLt s (selectKeeper x rest) = true := by
          cases h : sortKeyLt s (selectKeeper x rest) <;> simp_all
        have hxs : sortKeyLt x s = true := by rw [heq]; exact hx
        have hxk := sortKeyLt_trans x s _ hxs hb'
        have hmin : sortKeyLt x (selectKeeper x rest) = false :=
          ih x x (List.mem_cons_self _ _)
        rw [hxk] at hmin
        exact absurd hmin (by simp)
      · exact ih x s hs'
    · simp only [Bool.not_eq_true] at hx
      simp only [hx, Bool.false_eq_true, if_false]
      rcases List.mem_cons.mp hs with heq | hs'
      · rw [heq]
        exact ih best best (List.mem_cons_self _ _)
      · rcases List.mem_cons.mp hs' with heq | hs''
        · by_contra hbad
          have hsk : sortKeyLt s (selectKeeper best rest) = true := by
            cases h : sortKeyLt s (selectKeeper best rest) <;> simp_all
          have hsb : sortKeyLt s best = false := by rw [heq]; exact hx
          have hbk : sortKeyLt best (selectKeeper best rest) = true :=
            sortKeyLt_total_aux _ _ _ hsk hsb
          have hbest : sortKeyLt best (selectKeeper best rest) = false :=
            ih best best (List.mem_cons_self _ _)
          rw [hbk] at hbest
          exact absurd hbest (by simp)
        · exact ih best s (List.mem_cons_of_mem _ hs'')

/-! ## Characterization of the grouping fold -/

theorem mem_catMap {α β : Type} (f : α → List β) (y : β) :
    ∀ l : List α, y ∈ catMap f l ↔ ∃ x ∈ l, y ∈ f x := by
  intro l
  induction l with
  | nil => simp [catMap]
  | cons x l ih => simp [catMap, ih]

theorem processGroup_eq (acc : List (Option String) × List Station)
    (g : String × List Station) :
    processGroup acc g = (acc.1 ++ groupKept g.2, acc.2 ++ groupRemoved g.2) := by
  rcases g with ⟨k, members⟩
  cases members with
  | nil => simp [processGroup, groupKept, groupRemoved]
  | cons st rest =>
    by_cases h : rest.isEmpty
    · simp [processGroup, groupKept, groupRemoved, h]
    · simp [processGroup, groupKept, groupRemoved, h]

theorem foldl_processGroup :
    ∀ (gs : List (String × List Station)) (acc : List (Option String) × List Station),
    gs.foldl processGroup acc =
      (acc.1 ++ catMap (fun g => groupKept g.2) gs,
       acc.2 ++ catMap (fun g => groupRemoved g.2) gs) := by
  intro gs
  induction gs with
  | nil => intro acc; simp [catMap]
  | cons g gs' ih =>
    intro acc
    rw [List.foldl_cons, processGroup_eq, ih]
    simp [catMap, List.append_assoc]

theorem runDedup_keptIds (data : List Station) :
    (runDedup data).keptIds = catMap (fun g => groupKept g.2) (groupsOf data) := by
  simp [runDedup, foldl_processGroup]

theorem runDedup_removed (data : List Station) :
    (runDedup data).removed = catMap (fun g => groupRemoved g.2) (groupsOf data) := by
  simp [runDedup, foldl_processGroup]

theorem runDedup_final (data : List Station) :
    (runDedup data).finalData =
      data.filter
        (fun s => memB s.stationuuid (catMap (fun g => groupKept g.2) (groupsOf data))) := by
  simp [runDedup, foldl_processGroup]

/-! ## Score bounds -/

theorem score_of_stable (a : Station) (h1 : pyStrip (orEmpty a.slug) ≠ "")
    (h2 : slugSuffixMatch (pyStrip (orEmpty a.slug)) = false) :
    10 ≤ score_station a := by
  simp only [score_station, if_pos (And.intro h1 h2)]
  split <;> omega

theorem score_of_suffixed (b : Station)
    (h : slugSuffixMatch (pyStrip (orEmpty b.slug)) = true) :
    score_station b ≤ 1 := by
  simp only [score_station]
  rw [if_neg (by simp [h])]
  split <;> omega

/-- Unpacking minimality `sortKeyLt s k = false` into the claim's phrasing. -/
theorem key_min_components (s k : Station) (h : sortKeyLt s k = false) :
    score_station s ≤ score_station k ∧
    (score_station s = score_station k →
      (slugRaw k).length ≤ (slugRaw s).length) ∧
    (score_station s = score_station k →
      (slugRaw k).length = (slugRaw s).length →
      charsLt (slugRaw s).data (slugRaw k).data = false) := by
  have h' : ¬ (score_station k < score_station s ∨
      (score_station s = score_station k ∧
        ((slugRaw s).length < (slugRaw k).length ∨
         ((slugRaw s).length = (slugRaw k).length ∧
          charsLt (slugRaw s).data (slugRaw k).data = true)))) := by
    rw [← sortKeyLt_iff]
    simp [h]
  push_neg at h'
  obtain ⟨h1, h2⟩ := h'
  refine ⟨by omega, ?_, ?_⟩
  · intro hs
    have := (h2 hs).1
    omega
  · intro hs hl
    have := (h2 hs).2 (by omega)
    simpa using this

/-! ## Two-record dedup computations -/

theorem runDedup_pair_first (x y : Station) (hu : urlKey x = urlKey y)
    (hw : sortKeyLt y x = false) (hne : y.stationuuid ≠ x.stationuuid) :
    (runDedup [x, y]).finalData = [x] := by
  have hgs : groupsOf [x, y] = [(urlKey y, [x, y])] := by
    simp [groupsOf, groupKeys, dedupBy, memB, hu]
  have hkeep : selectKeeper x [y] = x := by
    simp [selectKeeper, hw]
  simp only [runDedup, hgs, List.foldl_cons, List.foldl_nil, processGroup, List.isEmpty_cons,
    hkeep]
  simp [memB, hne]

theorem runDedup_pair_second (x y : Station) (hu : urlKey x = urlKey y)
    (hw : sortKeyLt y x = true) (hne : x.stationuuid ≠ y.stationuuid) :
    (runDedup [x, y]).finalData = [y] := by
  have hgs : groupsOf [x, y] = [(urlKey y, [x, y])] := by
    simp [groupsOf, groupKeys, dedupBy, memB, hu]
  have hkeep : selectKeeper x [y] = y := by
    simp [selectKeeper, hw]
  simp only [runDedup, hgs, List.foldl_cons, List.foldl_nil, processGroup, List.isEmpty_cons,
    hkeep]
  simp [memB, hne]

/-- C4: in every multi-member group sharing a (non-empty) `stream_url`, the
kept record maximizes `score_station`, with ties broken by shorter and then
lexicographically smaller slug; all other members are removed.  In
particular, of two records sharing a non-empty `stream_url` where one slug is
stable and the other matches the random-suffix pattern, the stable-slug
record is kept (in either input order). -/
theorem C4_keeper_maximizes :
    (∀ (data : List Station) (url : String) (members : List Station),
      (url, members) ∈ groupsOf data → 2 ≤ members.length →
      ∃ keeper, groupKeeper members = some keeper ∧ keeper ∈ members ∧
        keeper.stationuuid ∈ (runDedup data).keptIds ∧
        (∀ s ∈ members, s ≠ keeper → s ∈ (runDedup data).removed) ∧
        (∀ s ∈ members,
          score_station s ≤ score_station keeper ∧
          (score_station s = score_station keeper →
            (slugRaw keeper).length ≤ (slugRaw s).length) ∧
          (score_station s = score_station keeper →
            (slugRaw keeper).length = (slugRaw s).length →
            charsLt (slugRaw s).data (slugRaw keeper).data = false))) ∧
    (∀ a b : Station,
      pyStrip (orEmpty a.stream_url) ≠ "" →
      pyStrip (orEmpty a.stream_url) = pyStrip (orEmpty b.stream_url) →
      a.stationuuid ≠ b.stationuuid →
      pyStrip (orEmpty a.slug) ≠ "" →
      slugSuffixMatch (pyStrip (orEmpty a.slug)) = false →
      slugSuffixMatch (pyStrip (orEmpty b.slug)) = true →
      (runDedup [a, b]).finalData = [a] ∧ (runDedup [b, a]).finalData = [a]) := by
  constructor
  · intro data url members hg h2
    obtain ⟨first, rest, hmem⟩ : ∃ f r, members = f :: r := by
      cases members with
      | nil => simp at h2
      | cons f r => exact ⟨f, r, rfl⟩
    subst hmem
    have hrest : rest.isEmpty = false := by
      cases rest with
      | nil => simp at h2
      | cons _ _ => simp
    refine ⟨selectKeeper first rest, rfl, selectKeeper_mem rest first, ?_, ?_, ?_⟩
    · rw [runDedup_keptIds, mem_catMap]
      refine ⟨(url, first :: rest), hg, ?_⟩
      simp [groupKept, hrest]
    · intro s hs hneq
      rw [runDedup_removed, mem_catMap]
      refine ⟨(url, first :: rest), hg, ?_⟩
      simp only [groupRemoved, hrest, Bool.false_eq_true, if_false]
      exact (List.mem_erase_of_ne hneq).mpr hs
    · intro s hs
      exact key_min_components s _ (selectKeeper_min rest first s hs)
  · intro a b hu1 hu2 huuid hslug hstable hsuff
    have hua : urlKey a = pyStrip (orEmpty a.stream_url) := by
      simp [urlKey, hu1]
    have hub : urlKey b = pyStrip (orEmpty b.stream_url) := by
      simp [urlKey, hu2 ▸ hu1]
    have hu : urlKey a = urlKey b := by rw [hua, hub, hu2]
    have hsa : 10 ≤ score_station a := score_of_stable a hslug hstable
    have hsb : score_station b ≤ 1 := score_of_suffixed b hsuff
    have hba : sortKeyLt b a = false := by
      cases h : sortKeyLt b a with
      | false => rfl
      | true =>
        rw [sortKeyLt_iff] at h
        rcases h with h | ⟨h, _⟩ <;> omega
    have hab : sortKeyLt a b = true := by
      rw [sortKeyLt_iff]
      exact Or.inl (by omega)
    refine ⟨runDedup_pair_first a b hu hba (fun h => huuid h.symm), ?_⟩
    exact runDedup_pair_second b a hu.symm hab (fun h => huuid h.symm)

/-- Witness for C4 at a concrete pair of duplicate records. -/
theorem C4_keeper_maximizes_witness :
    (runDedup [wA, wB]).finalData = [wA] ∧ (runDedup [wB, wA]).finalData = [wA] :=
  C4_keeper_maximizes.2 wA wB (by decide) (by decide) (by decide) (by decide)
    (by decide) (by decide)

/-- C1 (code bug evidence): two distinct records whose `stream_url` is
missing or empty land in the shared `"__no_stream__"` bucket and ARE
deduplicated against each other — the second one does not survive, although
the claim says every empty-`stream_url` record appears in the output. -/
theorem C1_no_stream_bucket_deduplicated :
    urlKey c1A = "__no_stream__" ∧ urlKey c1B = "__no_stream__" ∧
    c1A.stationuuid ≠ c1B.stationuuid ∧
    (runDedup [c1A, c1B]).finalData = [c1A] ∧
    c1B ∉ (runDedup [c1A, c1B]).finalData := by
  decide

/-! ## Membership lemmas for the grouping -/

theorem memB_iff {α : Type} [DecidableEq α] (x : α) :
    ∀ l : List α, memB x l = true ↔ x ∈ l := by
  intro l
  induction l with
  | nil => simp [memB]
  | cons y l ih =>
    by_cases h : x = y
    · simp [memB, h]
    · simp [memB, h, ih]

theorem mem_dedupBy {α : Type} [DecidableEq α] (x : α) :
    ∀ (l seen : List α), x ∈ dedupBy seen l ↔ x ∈ l ∧ x ∉ seen := by
  intro l
  induction l with
  | nil => intro seen; simp [dedupBy]
  | cons y l ih =>
    intro seen
    by_cases h : memB y seen = true
    · have hy : y ∈ seen := (memB_iff y seen).mp h
      simp only [dedupBy, h, if_true, ih, List.mem_cons]
      constructor
      · rintro ⟨h1, h2⟩; exact ⟨Or.inr h1, h2⟩
      · rintro ⟨h1, h2⟩
        rcases h1 with heq | h1
        · exact absurd (heq ▸ hy) h2
        · exact ⟨h1, h2⟩
    · have hy : y ∉ seen := fun hmem => h ((memB_iff y seen).mpr hmem)
      simp only [dedupBy, h, if_false, Bool.false_eq_true, List.mem_cons, ih]
      constructor
      · rintro (heq | ⟨h1, h2⟩)
        · exact ⟨Or.inl heq, by rw [heq]; exact hy⟩
        · exact ⟨Or.inr h1, fun hmem => h2 (Or.inr hmem)⟩
      · rintro ⟨h1, h2⟩
        rcases h1 with heq | h1
        · exact Or.inl heq
        · by_cases hxy : x = y
          · exact Or.inl hxy
          · exact Or.inr ⟨h1, fun hc => hc.elim hxy h2⟩

theorem mem_groupsOf (data : List Station) (g : String × List Station)
    (hg : g ∈ groupsOf data) : g.2 = data.filter (fun s => urlKey s = g.1) := by
  simp only [groupsOf, List.mem_map] at hg
  obtain ⟨k, _, heq⟩ := hg
  rw [← heq]

theorem self_group_mem (data : List Station) (s : Station) (hs : s ∈ data) :
    (urlKey s, data.filter (fun t => urlKey t = urlKey s)) ∈ groupsOf data := by
  simp only [groupsOf, List.mem_map]
  refine ⟨urlKey s, ?_, rfl⟩
  rw [groupKeys, mem_dedupBy]
  exact ⟨List.mem_map_of_mem urlKey hs, List.not_mem_nil _⟩

theorem urlKey_of_mem_filter (data : List Station) (k : String) (s : Station)
    (h : s ∈ data.filter (fun t => urlKey t = k)) : urlKey s = k := by
  have := List.of_mem_filter h
  simpa using this

theorem groupKept_eq (st : Station) (rest : List Station) :
    groupKept (st :: rest) = [(selectKeeper st rest).stationuuid] := by
  cases rest <;> simp [groupKept, selectKeeper]

theorem groupRemoved_eq (st : Station) (rest : List Station) :
    groupRemoved (st :: rest) = (st :: rest).erase (selectKeeper st rest) := by
  cases rest <;> simp [groupRemoved, selectKeeper, List.erase_cons_head]

/-- C10: when `stationuuid` values are pairwise distinct, the surviving
dataset is exactly the input list with the removed records deleted — every
remaining record unmodified and in its original relative position. -/
theorem C10_order_preserved (data : List Station)
    (h : (data.map Station.stationuuid).Nodup) :
    (runDedup data).finalData =
      data.filter (fun s => !memB s (runDedup data).removed) := by
  have hdata : data.Nodup := h.of_map
  have hinj : ∀ x ∈ data, ∀ y ∈ data,
      x.stationuuid = y.stationuuid → x = y :=
    fun x hx y hy hf => List.inj_on_of_nodup_map h hx hy hf
  rw [runDedup_final, runDedup_removed]
  apply List.filter_congr
  intro s hs
  have hiff : s.stationuuid ∈ catMap (fun g => groupKept g.2) (groupsOf data) ↔
      s ∉ catMap (fun g => groupRemoved g.2) (groupsOf data) := by
    constructor
    · intro hK hR
      rw [mem_catMap] at hK hR
      obtain ⟨g, hgmem, hkept⟩ := hK
      obtain ⟨g', hg'mem, hrem⟩ := hR
      have hg2 := mem_groupsOf data g hgmem
      have hg'2 := mem_groupsOf data g' hg'mem
      rcases hG : g.2 with _ | ⟨st, rest⟩
      · rw [hG] at hkept; simp [groupKept] at hkept
      · rw [hG, groupKept_eq] at hkept
        simp only [List.mem_singleton] at hkept
        have hksel : selectKeeper st rest ∈ g.2 := hG ▸ selectKeeper_mem rest st
        have hkdata : selectKeeper st rest ∈ data :=
          List.mem_of_mem_filter (hg2 ▸ hksel)
        have hseq : s = selectKeeper st rest := hinj s hs _ hkdata hkept
        rcases hG' : g'.2 with _ | ⟨st', rest'⟩
        · rw [hG'] at hrem; simp [groupRemoved] at hrem
        · rw [hG', groupRemoved_eq] at hrem
          have hsG' : s ∈ g'.2 := hG' ▸ List.mem_of_mem_erase hrem
          have hkey' : urlKey s = g'.1 :=
            urlKey_of_mem_filter _ _ _ (hg'2 ▸ hsG')
          have hkeyg : urlKey (selectKeeper st rest) = g.1 :=
            urlKey_of_mem_filter _ _ _ (hg2 ▸ hksel)
          have hkeys : g'.1 = g.1 := by rw [← hkey', hseq, hkeyg]
          have hsame : st' :: rest' = st :: rest := by
            rw [← hG, ← hG', hg2, hg'2, hkeys]
          obtain ⟨hst, hrest⟩ := List.cons_eq_cons.mp hsame
          rw [hst, hrest] at hrem
          have hnd : (st :: rest).Nodup := by
            rw [← hG, hg2]; exact hdata.filter _
          rw [hseq] at hrem
          exact hnd.not_mem_erase hrem
    · intro hnR
      have hself := self_group_mem data s hs
      have hsfilter : s ∈ data.filter (fun t => urlKey t = urlKey s) :=
        List.mem_filter.mpr ⟨hs, by simp⟩
      rcases hF : data.filter (fun t => urlKey t = urlKey s) with _ | ⟨st, rest⟩
      · rw [hF] at hsfilter; simp at hsfilter
      · by_cases hsk : s = selectKeeper st rest
        · rw [mem_catMap]
          refine ⟨(urlKey s, st :: rest), hF ▸ hself, ?_⟩
          rw [groupKept_eq]
          simp [hsk]
        · exfalso
          apply hnR
          rw [mem_catMap]
          refine ⟨(urlKey s, st :: rest), hF ▸ hself, ?_⟩
          rw [groupRemoved_eq]
          exact (List.mem_erase_of_ne hsk).mpr (hF ▸ hsfilter)
  cases hk : memB s.stationuuid (catMap (fun g => groupKept g.2) (groupsOf data)) with
  | true =>
    have hnotR := hiff.mp ((memB_iff _ _).mp hk)
    have hr : memB s (catMap (fun g => groupRemoved g.2) (groupsOf data)) = false := by
      cases hr : memB s (catMap (fun g => groupRemoved g.2) (groupsOf data)) with
      | false => rfl
      | true => exact absurd ((memB_iff _ _).mp hr) hnotR
    rw [hr]
    rfl
  | false =>
    have hr : s ∈ catMap (fun g => groupRemoved g.2) (groupsOf data) := by
      by_contra hnR
      have := (memB_iff _ _).mpr (hiff.mpr hnR)
      rw [this] at hk
      exact absurd hk (by simp)
    rw [(memB_iff _ _).mpr hr]
    rfl

/-- Witness for C10 at a concrete two-record dataset. -/
theorem C10_order_preserved_witness :
    (runDedup [wA, wB]).finalData =
      [wA, wB].filter (fun s => !memB s (runDedup [wA, wB]).removed) :=
  C10_order_preserved [wA, wB] (by decide)

/-! ## Icon deletion (C5) -/

theorem nodup_dedupBy {α : Type} [DecidableEq α] :
    ∀ (l seen : List α), (dedupBy seen l).Nodup := by
  intro l
  induction l with
  | nil => intro seen; simp [dedupBy]
  | cons y l ih =>
    intro seen
    by_cases h : memB y seen = true
    · simpa [dedupBy, h] using ih seen
    · simp only [dedupBy, h, if_false, Bool.false_eq_true]
      refine List.nodup_cons.mpr ⟨?_, ih (y :: seen)⟩
      intro hmem
      have := ((mem_dedupBy y l (y :: seen)).mp hmem).2
      exact this (List.mem_cons_self _ _)

/-- C5: after the duplicate remover runs, no icon filename referenced by a
surviving record's favicon is deleted, and every icon filename referenced
only by removed records (non-empty, and present on disk) is deleted exactly
once.  A record references icon `n` iff its `favicon` contains
`"/station-icons/"` and has basename `n` (`iconName`). -/
theorem C5_icon_deletion (data : List Station) (disk : List String) :
    (∀ st ∈ (runDedup data).finalData, ∀ n, iconName st = some n →
      n ∉ runIcons (runDedup data).finalData (runDedup data).removed disk) ∧
    (runIcons (runDedup data).finalData (runDedup data).removed disk).Nodup ∧
    (∀ n, n ≠ "" →
      (∃ st ∈ (runDedup data).removed, iconName st = some n) →
      (∀ st ∈ (runDedup data).finalData, iconName st ≠ some n) →
      n ∈ disk →
      (runIcons (runDedup data).finalData (runDedup data).removed disk).count n = 1) := by
  set F := (runDedup data).finalData with hF
  set R := (runDedup data).removed with hR
  have hnd : (runIcons F R disk).Nodup := by
    unfold runIcons
    exact (nodup_dedupBy _ _).filter _
  refine ⟨?_, hnd, ?_⟩
  · intro st hst n hn hmem
    have href : n ∈ F.filterMap iconName :=
      List.mem_filterMap.mpr ⟨st, hst, hn⟩
    unfold runIcons at hmem
    have hdd := List.mem_of_mem_filter hmem
    have hri := ((mem_dedupBy n _ []).mp hdd).1
    have hpred := List.of_mem_filter hri
    have : memB n (F.filterMap iconName) = false := by
      rcases Bool.and_eq_true .. |>.mp hpred with ⟨_, h2⟩
      simpa using h2
    rw [(memB_iff _ _).mpr href] at this
    exact absurd this (by simp)
  · intro n hne hrem hsurv hdisk
    obtain ⟨st, hst, hicon⟩ := hrem
    have hri : n ∈ (R.filterMap iconName).filter
        (fun m => m ≠ "" && !memB m (F.filterMap iconName)) := by
      refine List.mem_filter.mpr ⟨List.mem_filterMap.mpr ⟨st, hst, hicon⟩, ?_⟩
      have hnotref : memB n (F.filterMap iconName) = false := by
        cases hmem : memB n (F.filterMap iconName) with
        | false => rfl
        | true =>
          obtain ⟨st', hst', hicon'⟩ :=
            List.mem_filterMap.mp ((memB_iff _ _).mp hmem)
          exact absurd hicon' (hsurv st' hst')
      simp [hne, hnotref]
    have hres : n ∈ runIcons F R disk := by
      unfold runIcons
      refine List.mem_filter.mpr ⟨(mem_dedupBy n _ []).mpr ⟨hri, List.not_mem_nil _⟩, ?_⟩
      simpa using (memB_iff n disk).mpr hdisk
    exact List.count_eq_one_of_mem hnd hres

/-- Witness for C5 at a concrete dedup run and disk state. -/
theorem C5_icon_deletion_witness :
    "keep.png" ∉ runIcons (runDedup [iA, iB]).finalData (runDedup [iA, iB]).removed
      ["keep.png", "gone.png"] ∧
    (runIcons (runDedup [iA, iB]).finalData (runDedup [iA, iB]).removed
      ["keep.png", "gone.png"]).count "gone.png" = 1 := by
  refine ⟨(C5_icon_deletion [iA, iB] ["keep.png", "gone.png"]).1 iA (by decide)
    "keep.png" (by decide), ?_⟩
  exact (C5_icon_deletion [iA, iB] ["keep.png", "gone.png"]).2.2 "gone.png"
    (by decide) ⟨iB, by decide, by decide⟩ (by decide) (by decide)

/-! ## The geo filler: address picking and the success step (C3) -/

theorem get?_set_self {α : Type} (a : α) :
    ∀ (l : List α) (i : Nat), i < l.length → (l.set i a).get? i = some a := by
  intro l
  induction l with
  | nil => intro i h; simp at h
  | cons x xs ih =>
    intro i h
    cases i with
    | zero => simp
    | succ n => simpa using ih n (by simpa using h)

theorem pickFrom_eq (addr : AddrMap) : ∀ ks : List String,
    pickFrom addr ks = (ks.filterMap (fun k =>
      match lookupAddr addr k with
      | some (some v) => if pyStrip v = "" then none else some (pyStrip v)
      | _ => none)).head? := by
  intro ks
  induction ks with
  | nil => rfl
  | cons k ks ih =>
    simp only [pickFrom, List.filterMap_cons]
    cases h : lookupAddr addr k with
    | none => simpa [h] using ih
    | some ov =>
      cases ov with
      | none => simpa [h] using ih
      | some v =>
        by_cases hv : pyStrip v = ""
        · simpa [h, hv] using ih
        · simp [h, hv]

theorem pick_eq_spec (addr : AddrMap) :
    pick_state_from_address addr = specFirstNonEmpty addr :=
  pickFrom_eq addr ADDRESS_PRIORITY

theorem selectFrom_spec (ag : GeoArgs) (skipped : List (Option String)) :
    ∀ (l : List Station) (i j : Nat) (t : Station),
    selectFrom ag skipped i l = some (j, t) →
    i ≤ j ∧ geoEligible ag skipped t = true ∧ l.get? (j - i) = some t := by
  intro l
  induction l with
  | nil => intro i j t h; simp [selectFrom] at h
  | cons st rest ih =>
    intro i j t h
    simp only [selectFrom] at h
    by_cases he : geoEligible ag skipped st = true
    · rw [if_pos he] at h
      have hp := Option.some.inj h
      have hij : i = j := congrArg Prod.fst hp
      have hst : st = t := congrArg Prod.snd hp
      subst hij
      subst hst
      exact ⟨le_refl i, he, by simp⟩
    · rw [if_neg he] at h
      obtain ⟨h1, h2, h3⟩ := ih (i + 1) j t h
      refine ⟨by omega, h2, ?_⟩
      have hji : j - i = (j - (i + 1)) + 1 := by omega
      rw [hji]
      simpa using h3

theorem geoBody_success_data (ag : GeoArgs) (oracle : GeoOracle) (s : GeoState)
    (idx : Nat) (target : Station) (payload : Option AddrMap) (v : String)
    (hlat : coordMissing target.geo_lat = false)
    (hlon : coordMissing target.geo_long = false)
    (horacle : oracle s.calls = Except.ok payload)
    (hpick : pick_state_from_address (addrOf payload) = some v) :
    (geoBody ag oracle s idx target).data =
      s.data.set idx { target with state := some v } := by
  unfold geoBody
  rw [hlat, hlon]
  simp only [Bool.or_self, Bool.false_eq_true, if_false, horacle, hpick]
  split <;> rfl

/-- C3: `pick_state_from_address` returns exactly the first non-empty field
of the address object in the fixed priority order, whitespace-stripped
(`specFirstNonEmpty`, modelled from the spec's words); and whenever the main
loop (in fill-missing mode) successfully processes a selected station with
valid coordinates, that station lacked a state and its new state is that
picked value. -/
theorem C3_state_from_priority :
    (∀ addr : AddrMap, pick_state_from_address addr = specFirstNonEmpty addr) ∧
    (∀ (ag : GeoArgs) (oracle : GeoOracle) (s : GeoState) (idx : Nat)
       (target : Station) (payload : Option AddrMap) (v : String),
      ag.overwrite = false →
      geoSelect ag s = some (idx, target) →
      coordMissing target.geo_lat = false →
      coordMissing target.geo_long = false →
      oracle s.calls = Except.ok payload →
      pick_state_from_address (addrOf payload) = some v →
      hasState target = false ∧
      specFirstNonEmpty (addrOf payload) = some v ∧
      (geoBody ag oracle s idx target).data.get? idx =
        some { target with state := some v }) := by
  refine ⟨pick_eq_spec, ?_⟩
  intro ag oracle s idx target payload v hov hsel hlat hlon horacle hpick
  obtain ⟨-, helig, hget⟩ := selectFrom_spec ag s.skipped s.data 0 idx target hsel
  rw [Nat.sub_zero] at hget
  have hlen : idx < s.data.length := by
    by_contra hge
    rw [List.get?_eq_none.mpr (Nat.le_of_not_lt hge)] at hget
    cases hget
  have hstate : hasState target = false := by
    unfold geoEligible at helig
    rw [hov] at helig
    rcases Bool.and_eq_true .. |>.mp helig with ⟨h1, -⟩
    simpa using h1
  refine ⟨hstate, pick_eq_spec _ ▸ hpick, ?_⟩
  rw [geoBody_success_data ag oracle s idx target payload v hlat hlon horacle hpick]
  exact get?_set_self _ s.data idx hlen

/-- Witness for C3 at a concrete station and oracle response. -/
theorem C3_state_from_priority_witness :
    hasState gW = false ∧
    specFirstNonEmpty (addrOf (some addrW)) = some "Marousi" ∧
    (geoBody agW oW (geoInit [gW] []) 0 gW).data.get? 0 =
      some { gW with state := some "Marousi" } :=
  C3_state_from_priority.2 agW oW (geoInit [gW] []) 0 gW (some addrW) "Marousi"
    (by decide) (by decide) (by decide) (by decide) rfl (by decide)

/-! ## Non-termination of the overwrite-mode loop (C2) -/

/-- In overwrite mode with no limit, from any loop counters and either the
initial or the already-updated one-station dataset, the loop never exits. -/
theorem c2_loop_aux : ∀ (fuel p c : Nat) (tr : List GeoEvent) (d : List Station),
    (d = [st2c] ∨ d = [st2c']) →
    geoRun ag2n or2C fuel
      { data := d, skipped := [], processed := p, calls := c, trace := tr } = none := by
  intro fuel
  induction fuel with
  | zero => intro p c tr d hd; rfl
  | succ fuel ih =>
    intro p c tr d hd
    rcases hd with hd | hd <;> subst hd
    · have hsel : geoSelect ag2n
          { data := [st2c], skipped := [], processed := p, calls := c, trace := tr } =
          some (0, st2c) := rfl
      have hbody : geoBody ag2n or2C
          { data := [st2c], skipped := [], processed := p, calls := c, trace := tr }
          0 st2c =
          { data := [st2c'], skipped := [], processed := p + 1, calls := c + 1,
            trace := (tr ++ [GeoEvent.request]) ++ [GeoEvent.sleep] } := rfl
      simp only [geoRun, maxReached, Bool.false_eq_true, if_false, hsel, hbody]
      exact ih (p + 1) (c + 1) ((tr ++ [GeoEvent.request]) ++ [GeoEvent.sleep])
        [st2c'] (Or.inr rfl)
    · have hsel : geoSelect ag2n
          { data := [st2c'], skipped := [], processed := p, calls := c, trace := tr } =
          some (0, st2c') := rfl
      have hbody : geoBody ag2n or2C
          { data := [st2c'], skipped := [], processed := p, calls := c, trace := tr }
          0 st2c' =
          { data := [st2c'], skipped := [], processed := p + 1, calls := c + 1,
            trace := (tr ++ [GeoEvent.request]) ++ [GeoEvent.sleep] } := rfl
      simp only [geoRun, maxReached, Bool.false_eq_true, if_false, hsel, hbody]
      exact ih (p + 1) (c + 1) ((tr ++ [GeoEvent.request]) ++ [GeoEvent.sleep])
        [st2c'] (Or.inr rfl)

/-- C2 (code bug evidence): in overwrite mode with no configured maximum, a
dataset with one geocodable station makes the loop re-select that station
forever — the run exhausts any amount of fuel instead of terminating when no
station remains to select, because a successful update never removes the
station from the candidate set. -/
theorem C2_overwrite_never_terminates :
    ∀ fuel : Nat, geoRun ag2n or2C fuel (geoInit [st2c] []) = none := by
  intro fuel
  exact c2_loop_aux fuel 0 0 [] [st2c] (Or.inl rfl)

/-- C6 (code bug evidence): a request that ends in a skip (here: the
geocoding response has no usable address field) is followed by the next
request with NO sleep between them — the trace shows two adjacent requests,
while the only sleep happens after the later successful update. -/
theorem C6_no_sleep_after_skipped_request :
    (geoRun agW or6 10 (geoInit [st6a, st6b] [])).map GeoState.trace =
      some [GeoEvent.request, GeoEvent.request, GeoEvent.sleep] ∧
    (geoRun agW or6 10 (geoInit [st6a, st6b] [])).map
      (fun s => adjacentRequests s.trace) = some true := by
  exact ⟨rfl, rfl⟩

/-! ## Idempotent re-run of the fillers (C8) -/

theorem selectFrom_none (ag : GeoArgs) (skipped : List (Option String)) :
    ∀ (l : List Station) (i : Nat),
    (∀ st ∈ l, geoEligible ag skipped st = false) →
    selectFrom ag skipped i l = none := by
  intro l
  induction l with
  | nil => intro i _; rfl
  | cons st rest ih =>
    intro i h
    have hst := h st (List.mem_cons_self _ _)
    simp only [selectFrom, hst, Bool.false_eq_true, if_false]
    exact ih (i + 1) (fun x hx => h x (List.mem_cons_of_mem _ hx))

theorem hpSelectFrom_none (skipped : List (Option String)) :
    ∀ (l : List Station) (i : Nat),
    (∀ st ∈ l, hpEligible skipped st = false) →
    hpSelectFrom skipped i l = none := by
  intro l
  induction l with
  | nil => intro i _; rfl
  | cons st rest ih =>
    intro i h
    have hst := h st (List.mem_cons_self _ _)
    simp only [hpSelectFrom, hst, Bool.false_eq_true, if_false]
    exact ih (i + 1) (fun x hx => h x (List.mem_cons_of_mem _ hx))

/-- C8: once every station either has a state or is in the skip set, a
re-run of the geo filler (fill-missing mode) or of the homepage filler
performs no dataset mutation: the loop exits with the dataset it loaded,
whatever the oracles would answer and whatever the limit and sleep flags. -/
theorem C8_rerun_is_noop (data : List Station) (skipped : List (Option String))
    (maxI : Option Nat) (sp : Bool) (go : GeoOracle) (ho : HpOracle) (fuel : Nat)
    (h : ∀ st ∈ data, hasState st = true ∨ st.stationuuid ∈ skipped) :
    (geoRun { overwrite := false, maxItems := maxI, sleepPos := sp } go (fuel + 1)
        (geoInit data skipped)).map GeoState.data = some data ∧
    (hpRun maxI ho (fuel + 1) (hpInit data skipped)).map HpState.data = some data := by
  have hgelig : ∀ st ∈ data,
      geoEligible { overwrite := false, maxItems := maxI, sleepPos := sp } skipped st
        = false := by
    intro st hst
    rcases h st hst with hs | hs
    · simp [geoEligible, hs]
    · simp [geoEligible, (memB_iff _ _).mpr hs]
  have hhelig : ∀ st ∈ data, hpEligible skipped st = false := by
    intro st hst
    rcases h st hst with hs | hs
    · simp [hpEligible, hs]
    · simp [hpEligible, (memB_iff _ _).mpr hs]
  constructor
  · have hsel : geoSelect { overwrite := false, maxItems := maxI, sleepPos := sp }
        { data := data, skipped := skipped, processed := 0, calls := 0, trace := [] } =
          none :=
      selectFrom_none _ _ data 0 hgelig
    simp only [geoRun, geoInit]
    cases hm : maxReached maxI 0 with
    | true => simp [hm]
    | false => simp [hm, hsel]
  · have hsel : hpSelect
        { data := data, skipped := skipped, processed := 0, calls := 0 } = none :=
      hpSelectFrom_none _ data 0 hhelig
    simp only [hpRun, hpInit]
    cases hm : maxReached maxI 0 with
    | true => simp [hm]
    | false => simp [hm, hsel]

/-- Witness for C8: a dataset whose only station already has a state. -/
theorem C8_rerun_is_noop_witness :
    (geoRun { overwrite := false, maxItems := none, sleepPos := true } oW 3
        (geoInit [st2c'] [])).map GeoState.data = some [st2c'] ∧
    (hpRun none (fun _ => Except.ok none) 3 (hpInit [st2c'] [])).map HpState.data =
      some [st2c'] :=
  C8_rerun_is_noop [st2c'] [] none true oW (fun _ => Except.ok none) 2 (by decide)

/-! ## Totality of the loaders (C9) -/

/-- C9: loading a missing or malformed progress/skip file or lookup file
never raises: every input yields a value, and missing/malformed inputs act
as the empty set / empty map. -/
theorem C9_loaders_never_raise :
    (∀ f : JsonFile, ∃ v, loadSkipped f = Except.ok v) ∧
    loadSkipped none = Except.ok [] ∧
    loadSkipped (some (Except.error ())) = Except.ok [] ∧
    load_city_region_map none = [] ∧
    load_city_region_map (some (Except.error ())) = [] := by
  refine ⟨?_, rfl, rfl, rfl, rfl⟩
  intro f
  match f with
  | none => exact ⟨[], rfl⟩
  | some (Except.error _) => exact ⟨[], rfl⟩
  | some (Except.ok j) =>
    cases h : setOfJson j with
    | error e => exact ⟨[], by simp [loadSkipped, h]⟩
    | ok v => exact ⟨v, by simp [loadSkipped, h]⟩

/-! ## The static-map city/region normalizer (C7) -/

theorem mem_addSkip (sk : List (Option String)) (x u : Option String) :
    u ∈ addSkip sk x ↔ u ∈ sk ∨ u = x := by
  unfold addSkip
  by_cases h : memB x sk = true
  · have hx : x ∈ sk := (memB_iff _ _).mp h
    simp only [h, if_true]
    constructor
    · exact Or.inl
    · rintro (hu | rfl)
      · exact hu
      · exact hx
  · simp [h]

theorem mem_discardSkip (sk : List (Option String)) (x u : Option String) :
    u ∈ discardSkip sk x ↔ u ∈ sk ∧ u ≠ x := by
  simp [discardSkip]

theorem hasKey_of_dictGet (m : List (String × String)) (k r : String)
    (h : dictGet m k = some r) : hasKey m k = true := by
  unfold dictGet at h
  obtain ⟨p, hfind, -⟩ := Option.map_eq_some'.mp h
  have hmem : p ∈ m.reverse := List.mem_of_find?_eq_some hfind
  have hp : p.1 = k := by simpa using List.find?_some hfind
  exact List.any_eq_true.mpr ⟨p, List.mem_reverse.mp hmem, by simp [hp]⟩

theorem hasKey_false_of_dictGet_none (m : List (String × String)) (k : String)
    (h : dictGet m k = none) : hasKey m k = false := by
  unfold dictGet at h
  have hfind := Option.map_eq_none'.mp h
  cases hk : hasKey m k with
  | false => rfl
  | true =>
    obtain ⟨p, hmem, hp⟩ := List.any_eq_true.mp hk
    have := List.find?_eq_none.mp hfind p (List.mem_reverse.mpr hmem)
    simp_all

theorem fixStep_skipped_cases (cityMap : List (String × String)) (t : Station)
    (a : FixAcc) :
    (fixStep cityMap t a).2.skipped = a.skipped ∨
    (fixStep cityMap t a).2.skipped = addSkip a.skipped t.stationuuid ∨
    (fixStep cityMap t a).2.skipped = discardSkip a.skipped t.stationuuid := by
  unfold fixStep
  dsimp only
  split
  · left; rfl
  · split
    · left; rfl
    · split
      · left; rfl
      · split
        · left; rfl
        · split
          · right; left; rfl
          · split
            · right; left; rfl
            · split
              · right; left; rfl
              · right; right; rfl

theorem fixStep_unknown_mono (cityMap : List (String × String)) (t : Station)
    (a : FixAcc) (c : String) (hc : c ∈ a.unknownCities) :
    c ∈ (fixStep cityMap t a).2.unknownCities := by
  unfold fixStep
  dsimp only
  split
  · exact hc
  · split
    · exact hc
    · split
      · exact hc
      · split
        · exact hc
        · split
          · split <;> simp [hc]
          · split
            · split <;> simp [hc]
            · split
              · exact hc
              · exact hc

theorem fixLoop_nil (cityMap : List (String × String)) (maxI : Option Nat)
    (a : FixAcc) : fixLoop cityMap maxI [] a = ([], a) := rfl

theorem fixLoop_cons_none (cityMap : List (String × String)) (t : Station)
    (l : List Station) (a : FixAcc) :
    fixLoop cityMap none (t :: l) a =
      ((fixStep cityMap t a).1 ::
        (fixLoop cityMap none l (fixStep cityMap t a).2).1,
       (fixLoop cityMap none l (fixStep cityMap t a).2).2) := rfl

theorem fixLoop_length (cityMap : List (String × String)) (maxI : Option Nat) :
    ∀ (l : List Station) (a : FixAcc), (fixLoop cityMap maxI l a).1.length = l.length := by
  intro l
  induction l with
  | nil => intro a; rfl
  | cons t l ih =>
    intro a
    simp only [fixLoop]
    split
    · rfl
    · simp only [List.length_cons]
      rw [ih]

theorem fixLoop_append (cityMap : List (String × String)) :
    ∀ (xs ys : List Station) (a : FixAcc),
    fixLoop cityMap none (xs ++ ys) a =
      ((fixLoop cityMap none xs a).1 ++
         (fixLoop cityMap none ys (fixLoop cityMap none xs a).2).1,
       (fixLoop cityMap none ys (fixLoop cityMap none xs a).2).2) := by
  intro xs
  induction xs with
  | nil => intro ys a; simp [fixLoop_nil]
  | cons t xs ih =>
    intro ys a
    rw [List.cons_append, fixLoop_cons_none, fixLoop_cons_none, ih]
    simp

theorem fixLoop_skipped_frame (cityMap : List (String × String)) (u : Option String) :
    ∀ (l : List Station) (a : FixAcc), (∀ t ∈ l, t.stationuuid ≠ u) →
    (u ∈ (fixLoop cityMap none l a).2.skipped ↔ u ∈ a.skipped) := by
  intro l
  induction l with
  | nil => intro a _; rfl
  | cons t l ih =>
    intro a h
    have ht : t.stationuuid ≠ u := h t (List.mem_cons_self _ _)
    have hl : ∀ x ∈ l, x.stationuuid ≠ u := fun x hx => h x (List.mem_cons_of_mem _ hx)
    rw [fixLoop_cons_none]
    have hstep : u ∈ (fixStep cityMap t a).2.skipped ↔ u ∈ a.skipped := by
      rcases fixStep_skipped_cases cityMap t a with hc | hc | hc
      · rw [hc]
      · rw [hc, mem_addSkip]
        constructor
        · rintro (hu | rfl)
          · exact hu
          · exact absurd rfl ht
        · exact Or.inl
      · rw [hc, mem_discardSkip]
        constructor
        · exact And.left
        · exact fun hu => ⟨hu, fun he => ht he.symm⟩
    exact (ih (fixStep cityMap t a).2 hl).trans hstep

theorem fixLoop_unknown_mono (cityMap : List (String × String)) (c : String) :
    ∀ (l : List Station) (a : FixAcc), c ∈ a.unknownCities →
    c ∈ (fixLoop cityMap none l a).2.unknownCities := by
  intro l
  induction l with
  | nil => intro a hc; exact hc
  | cons t l ih =>
    intro a hc
    rw [fixLoop_cons_none]
    exact ih _ (fixStep_unknown_mono cityMap t a c hc)

theorem fixStep_hit (cityMap : List (String × String)) (st : Station) (a : FixAcc)
    (sv r : String)
    (hsv : st.state = some sv) (hreg : memB sv REGIONS = false)
    (hcity : truthy st.city = false) (hstrip : pyStrip sv ≠ "")
    (hget : dictGet cityMap (normalize_text sv) = some r)
    (hr : r ≠ "") (hrreg : memB r REGIONS = true) :
    fixStep cityMap st a =
      ({ st with city := some (pyStrip sv), state := some r },
       { a with processed := a.processed + 1,
                skipped := discardSkip a.skipped st.stationuuid }) := by
  have hkey : hasKey cityMap (normalize_text sv) = true :=
    hasKey_of_dictGet _ _ _ hget
  unfold fixStep
  rw [hsv]
  simp [stateIsRegion, hreg, hcity, hstrip, hkey, hget, hr, hrreg]

theorem fixStep_miss_new (cityMap : List (String × String)) (st : Station) (a : FixAcc)
    (sv : String)
    (hsv : st.state = some sv) (hreg : memB sv REGIONS = false)
    (hcity : truthy st.city = false) (hstrip : pyStrip sv ≠ "")
    (hget : dictGet cityMap (normalize_text sv) = none)
    (hskip : memB st.stationuuid a.skipped = false) :
    fixStep cityMap st a =
      (st, { a with
             unknownCities :=
               if memB (pyStrip sv) a.unknownCities then a.unknownCities
               else a.unknownCities ++ [pyStrip sv]
             skipped := addSkip a.skipped st.stationuuid }) := by
  unfold fixStep
  rw [hsv]
  simp [stateIsRegion, hreg, hcity, hstrip, hskip, hget]

theorem fixStep_miss_skipped (cityMap : List (String × String)) (st : Station)
    (a : FixAcc) (sv : String)
    (hsv : st.state = some sv) (hreg : memB sv REGIONS = false)
    (hcity : truthy st.city = false) (hstrip : pyStrip sv ≠ "")
    (hget : dictGet cityMap (normalize_text sv) = none)
    (hskip : memB st.stationuuid a.skipped = true) :
    fixStep cityMap st a = (st, a) := by
  have hkey : hasKey cityMap (normalize_text sv) = false :=
    hasKey_false_of_dictGet_none _ _ hget
  unfold fixStep
  rw [hsv]
  simp [stateIsRegion, hreg, hcity, hstrip, hskip, hkey]

/-- C7 (amended): for a station whose `state` holds a non-region, non-empty
string and whose `city` is empty, with a `stationuuid` unique in the dataset
and no `--max` limit: on a lookup hit mapping to a canonical region the run
moves the stripped state into `city`, sets `state` to the region and leaves
the station out of the skip set; on a lookup miss with the station not
already in the skip set the record is unchanged, the station joins the skip
set and its city string is recorded as unknown; on a lookup miss with the
station already in the skip set the record is unchanged and the station
stays in the skip set (it is passed over, so no unknown entry is recorded
for it). -/
theorem C7_city_fix (cityMap : List (String × String)) (pre post : List Station)
    (st : Station) (sk0 : List (Option String)) (sv : String) (u : String)
    (huuid : st.stationuuid = some u)
    (hothers : ∀ t ∈ pre ++ post, t.stationuuid ≠ some u)
    (hsv : st.state = some sv)
    (hreg : memB sv REGIONS = false)
    (hstrip : pyStrip sv ≠ "")
    (hcity : truthy st.city = false) :
    (∀ r, dictGet cityMap (normalize_text sv) = some r → r ≠ "" →
      memB r REGIONS = true →
      (fixRun cityMap none (pre ++ st :: post) sk0).1.get? pre.length =
        some { st with city := some (pyStrip sv), state := some r } ∧
      some u ∉ (fixRun cityMap none (pre ++ st :: post) sk0).2.skipped) ∧
    (dictGet cityMap (normalize_text sv) = none → some u ∉ sk0 →
      (fixRun cityMap none (pre ++ st :: post) sk0).1.get? pre.length = some st ∧
      some u ∈ (fixRun cityMap none (pre ++ st :: post) sk0).2.skipped ∧
      pyStrip sv ∈ (fixRun cityMap none (pre ++ st :: post) sk0).2.unknownCities) ∧
    (dictGet cityMap (normalize_text sv) = none → some u ∈ sk0 →
      (fixRun cityMap none (pre ++ st :: post) sk0).1.get? pre.length = some st ∧
      some u ∈ (fixRun cityMap none (pre ++ st :: post) sk0).2.skipped) := by
  have hpre : ∀ t ∈ pre, t.stationuuid ≠ some u :=
    fun t ht => hothers t (List.mem_append_left _ ht)
  have hpost : ∀ t ∈ post, t.stationuuid ≠ some u :=
    fun t ht => hothers t (List.mem_append_right _ ht)
  set a0 : FixAcc := { skipped := sk0, unknownCities := [], processed := 0 } with ha0
  have hsk1 : some u ∈ (fixLoop cityMap none pre a0).2.skipped ↔ some u ∈ sk0 :=
    fixLoop_skipped_frame cityMap (some u) pre a0 hpre
  have key : ∀ (st' : Station) (a' : FixAcc),
      fixStep cityMap st (fixLoop cityMap none pre a0).2 = (st', a') →
      (fixRun cityMap none (pre ++ st :: post) sk0).1.get? pre.length = some st' ∧
      (fixRun cityMap none (pre ++ st :: post) sk0).2 =
        (fixLoop cityMap none post a').2 := by
    intro st' a' hstep
    unfold fixRun
    rw [← ha0, fixLoop_append, fixLoop_cons_none, hstep]
    refine ⟨?_, rfl⟩
    dsimp only
    rw [List.get?_append_right (le_of_eq (fixLoop_length cityMap none pre a0))]
    rw [fixLoop_length, Nat.sub_self]
    rfl
  refine ⟨?_, ?_, ?_⟩
  · intro r hgetd hr hrreg
    have hstep := fixStep_hit cityMap st (fixLoop cityMap none pre a0).2 sv r
      hsv hreg hcity hstrip hgetd hr hrreg
    obtain ⟨hg, hs⟩ := key _ _ hstep
    refine ⟨hg, ?_⟩
    rw [hs, fixLoop_skipped_frame cityMap (some u) post _ hpost]
    dsimp only
    rw [mem_discardSkip]
    rintro ⟨-, hne⟩
    exact hne huuid.symm
  · intro hgetd hnsk
    have hskB : memB st.stationuuid (fixLoop cityMap none pre a0).2.skipped = false := by
      rw [huuid]
      cases hb : memB (some u) (fixLoop cityMap none pre a0).2.skipped with
      | false => rfl
      | true => exact absurd (hsk1.mp ((memB_iff _ _).mp hb)) hnsk
    have hstep := fixStep_miss_new cityMap st (fixLoop cityMap none pre a0).2 sv
      hsv hreg hcity hstrip hgetd hskB
    obtain ⟨hg, hs⟩ := key _ _ hstep
    refine ⟨hg, ?_, ?_⟩
    · rw [hs, fixLoop_skipped_frame cityMap (some u) post _ hpost]
      dsimp only
      rw [mem_addSkip, huuid]
      exact Or.inr rfl
    · rw [hs]
      apply fixLoop_unknown_mono
      dsimp only
      by_cases hm : memB (pyStrip sv)
          (fixLoop cityMap none pre a0).2.unknownCities = true
      · rw [if_pos hm]
        exact (memB_iff _ _).mp hm
      · rw [if_neg hm]
        exact List.mem_append_right _ (List.mem_singleton.mpr rfl)
  · intro hgetd hsk
    have hskB : memB st.stationuuid (fixLoop cityMap none pre a0).2.skipped = true := by
      rw [huuid]
      exact (memB_iff _ _).mpr (hsk1.mpr hsk)
    have hstep := fixStep_miss_skipped cityMap st (fixLoop cityMap none pre a0).2 sv
      hsv hreg hcity hstrip hgetd hskB
    obtain ⟨hg, hs⟩ := key _ _ (by rw [hstep])
    refine ⟨hg, ?_⟩
    rw [hs, fixLoop_skipped_frame cityMap (some u) post _ hpost]
    exact hsk1.mpr hsk

/-- C7 counterexample to the claim as stated: a station meeting all of the
claim's preconditions (non-region, non-empty `state`, empty `city`) whose
lookup misses while the station is already in the skip set is passed over:
its record is unchanged but its city string is NOT recorded as unknown,
against the claim's miss clause. -/
theorem C7_city_fix_counterexample :
    st7m.state = some "Foo" ∧ memB "Foo" REGIONS = false ∧
    pyStrip "Foo" ≠ "" ∧ truthy st7m.city = false ∧
    dictGet [] (normalize_text "Foo") = none ∧
    st7m.stationuuid = some "c1" ∧
    (fixRun [] none [st7m] [some "c1"]).1 = [st7m] ∧
    (fixRun [] none [st7m] [some "c1"]).2.unknownCities = [] := by
  decide

/-- Witness for C7 (hit case) at the Athens example: the station ends with
`city = "Athens"` and `state = "Attica"` and is not in the skip set. -/
theorem C7_city_fix_witness :
    (fixRun map7 none [st7] []).1.get? 0 =
      some { st7 with city := some "Athens", state := some "Attica" } ∧
    some "c1" ∉ (fixRun map7 none [st7] []).2.skipped :=
  (C7_city_fix map7 [] [] st7 [] "Athens" "c1" rfl (by simp) rfl (by decide)
    (by decide) (by decide)).1 "Attica" (by decide) (by decide) (by decide)

end ERadio


